import Mathlib

/-
  Verification of the transducers library (src/transducer.js).

  The library builds a composable single-pass pipeline over an array.
  A pipeline (the `Transducer` object) holds a list of stage objects
  (`Transducer.Filter`, `Transducer.Map`, `Transducer.Reduce`), each with
  three fields: `initialValue` (a factory for the starting accumulator),
  `reducer` (a step function), and `transducer` (a combinator that wraps
  a downstream step function).  `compose` folds the stage list from the
  last index down to index 0 into one combined step; `transduce` drives a
  single forward traversal of the input array with that step.

  The embedding below is shallow: JS values are the inductive `JSVal`
  (the JSON-representable values the library is specified over: numbers,
  strings, booleans, null, and arrays of such), user-supplied callbacks
  are `UserFn` (a function of its JS argument list, together with a
  numeric identity modelling JS object reference identity, which the
  source compares with `!==`), step functions are the inductive `StepFn`
  (closures built by the combinators are constructor applications, so
  that reference comparison against a user callback is decidable), and
  thrown JS errors are the `JSError` side of `Except`.
-/

/-- A JSON-representable JS value: number, boolean, string, null, or an
array of such values.  The library is specified over plain data (deep
copy of seeds is `JSON.parse(JSON.stringify(x))`), so this is the value
universe of the development.  Numbers are modelled as integers. -/
inductive JSVal where
  | vnum (n : Int)
  | vbool (b : Bool)
  | vstr (s : String)
  | vnull
  | varr (xs : List JSVal)

mutual

/-- Structural equality on `JSVal`, mutually with lists of values. -/
def JSVal.beq : JSVal → JSVal → Bool
  | .vnum a, .vnum b => a == b
  | .vbool a, .vbool b => a == b
  | .vstr a, .vstr b => a == b
  | .vnull, .vnull => true
  | .varr a, .varr b => JSVal.beqList a b
  | _, _ => false

/-- Structural equality on lists of `JSVal`. -/
def JSVal.beqList : List JSVal → List JSVal → Bool
  | [], [] => true
  | a :: as, b :: bs => JSVal.beq a b && JSVal.beqList as bs
  | _, _ => false

end

mutual

theorem JSVal.beq_eq : ∀ a b : JSVal, JSVal.beq a b = true ↔ a = b
  | .vnum _, b => by cases b <;> simp [JSVal.beq]
  | .vbool _, b => by cases b <;> simp [JSVal.beq]
  | .vstr _, b => by cases b <;> simp [JSVal.beq]
  | .vnull, b => by cases b <;> simp [JSVal.beq]
  | .varr as, b => by
    cases b <;> simp [JSVal.beq]
    case varr bs => exact JSVal.beqList_eq as bs

theorem JSVal.beqList_eq : ∀ as bs : List JSVal, JSVal.beqList as bs = true ↔ as = bs
  | [], bs => by cases bs <;> simp [JSVal.beqList]
  | a :: as, bs => by
    cases bs with
    | nil => simp [JSVal.beqList]
    | cons b bs => simp [JSVal.beqList, JSVal.beq_eq a b, JSVal.beqList_eq as bs]

end

instance : DecidableEq JSVal := fun a b =>
  decidable_of_iff (JSVal.beq a b = true) (JSVal.beq_eq a b)

/-- JS truthiness of a `JSVal` (used by the `if` in the filter step). -/
def truthy : JSVal → Bool
  | .vnum n => n != 0
  | .vbool b => b
  | .vstr s => s != ""
  | .vnull => false
  | .varr _ => true

/-- A user-supplied JS callback: its behaviour as a pure function of the
JS argument list, together with an identity `id` modelling object
reference identity (`!==` in the source compares references, so two
`UserFn`s denote the same JS function object exactly when their ids are
equal). -/
structure UserFn where
  id : Nat
  fn : List JSVal → JSVal

/-- The errors the library throws.  Messages in the source are recorded
in the doc comments of the constructors. -/
inductive JSError where
  /-- `"Missing callback function"`, from `Transducer._filter`,
  `Transducer._map` and `Transducer._reduce`. -/
  | missingCallback
  /-- `"Missing initial value"`, from `Transducer._initialValue`. -/
  | missingInitialValue
  /-- `"Reduce not last"`, from the closure `Transducer._reduce` returns. -/
  | reduceNotLast
  /-- `"Missing array"`, from `Transducer.prototype.transduce`. -/
  | missingArray
  /-- Composing an empty pipeline: `transducers[n - 1]` is `undefined`
  and reading `.reducer` from it throws a TypeError.  The specification
  names this situation `EmptyPipeline`. -/
  | emptyPipeline
  /-- Calling `accumulator.push` when the accumulator is not an array. -/
  | typeErrorPush
  /-- Calling `this._initialValue()` on a pipeline that was never
  composed (the property is `undefined`). -/
  | typeErrorNotComposed
deriving DecidableEq

/-- A step function value, `(accumulator, currentValue, currentIndex,
array) -> accumulator`.  Closures produced by the combinators are
constructor applications, so the reference comparison in `_reduce`
(`reducer !== callbackFn`) is expressible: a composed step is
reference-identical to a user callback exactly when it is `user c` for
that callback. -/
inductive StepFn where
  /-- A user-supplied callback used directly as a step (the `reducer`
  field of a Reduce stage is the `callbackFn` itself). -/
  | user (c : UserFn)
  /-- `Transducer._push`: appends the current value to the accumulator. -/
  | push
  /-- The closure `Transducer._filter(p)(down)`. -/
  | filterStep (p : UserFn) (down : StepFn)
  /-- The closure `Transducer._map(t)(down)`. -/
  | mapStep (t : UserFn) (down : StepFn)

/-- JS reference equality between a step function value and a user
callback: true exactly when the step IS that function object. -/
def refEq : StepFn → UserFn → Bool
  | .user c, d => c.id == d.id
  | _, _ => false

/-- Evaluation of a step function at `(accumulator, currentValue,
currentIndex, array)`.  User callbacks receive their JS argument lists:
a predicate or transform is called with three arguments
`(currentValue, currentIndex, array)`, a combine callback with four.
`Transducer._push` throws a TypeError when the accumulator is not an
array (JS: `accumulator.push is not a function`). -/
def StepFn.eval : StepFn → JSVal → JSVal → JSVal → JSVal → Except JSError JSVal
  | .user c, acc, v, i, arr => .ok (c.fn [acc, v, i, arr])
  | .push, acc, v, _, _ =>
    match acc with
    | .varr xs => .ok (.varr (xs ++ [v]))
    | _ => .error .typeErrorPush
  | .filterStep p down, acc, v, i, arr =>
    if truthy (p.fn [v, i, arr]) then down.eval acc v i arr else .ok acc
  | .mapStep t down, acc, v, i, arr =>
    down.eval acc (t.fn [v, i, arr]) i arr

/-- The `transducer` field of a stage object: the combinator closure
returned by `Transducer._filter`, `Transducer._map` or
`Transducer._reduce`. -/
inductive TransducerFn where
  | tfilter (p : UserFn)
  | tmap (t : UserFn)
  | treduce (c : UserFn)

/-- Applying a combinator to a downstream step.  `_filter(p)(r)` and
`_map(t)(r)` build wrapping closures and never throw; `_reduce(c)(r)`
throws `"Reduce not last"` unless `r !== c` fails, i.e. unless the
downstream step is reference-identical to the combine callback, in
which case it returns the downstream step unchanged. -/
def TransducerFn.apply : TransducerFn → StepFn → Except JSError StepFn
  | .tfilter p, r => .ok (.filterStep p r)
  | .tmap t, r => .ok (.mapStep t r)
  | .treduce c, r => if refEq r c then .ok r else .error .reduceNotLast

mutual

/-- Deep copy by JSON round trip, `JSON.parse(JSON.stringify(x))`
(`Transducer._initialValue`).  On the JSON-representable values of
`JSVal` the round trip rebuilds the value structurally. -/
def jsonClone : JSVal → JSVal
  | .vnum n => .vnum n
  | .vbool b => .vbool b
  | .vstr s => .vstr s
  | .vnull => .vnull
  | .varr xs => .varr (jsonCloneList xs)

/-- JSON round trip of an array of values, elementwise. -/
def jsonCloneList : List JSVal → List JSVal
  | [] => []
  | v :: vs => jsonClone v :: jsonCloneList vs

end

/-- The `initialValue` field of a stage object: a factory called once
per execution to produce the starting accumulator. -/
inductive InitValue where
  /-- The global `Array` function (Filter and Map stages store
  `this.initialValue = Array`); calling it returns a fresh empty
  array. -/
  | arrayCtor
  /-- The closure returned by `Transducer._initialValue(z)`: each call
  returns `JSON.parse(JSON.stringify(z))`, a fresh deep copy of the
  captured seed. -/
  | seedThunk (z : JSVal)

/-- Calling the initial-value factory. -/
def InitValue.run : InitValue → JSVal
  | .arrayCtor => .varr []
  | .seedThunk z => jsonClone z

/-- A constructed stage object (`new Transducer.Filter(...)` etc.):
fields `initialValue`, `reducer`, `transducer`. -/
structure StageObj where
  initialValue : InitValue
  reducer : StepFn
  transducer : TransducerFn

namespace Transducer

/-- `Transducer._filter(callbackFn)`: throws `"Missing callback
function"` when the callback is `null`/`undefined` (modelled by `none`),
otherwise returns the filter combinator. -/
def _filter (callbackFn : Option UserFn) : Except JSError TransducerFn :=
  match callbackFn with
  | none => .error .missingCallback
  | some p => .ok (.tfilter p)

/-- `Transducer._map(callbackFn)`: throws `"Missing callback function"`
when the callback is absent, otherwise returns the map combinator. -/
def _map (callbackFn : Option UserFn) : Except JSError TransducerFn :=
  match callbackFn with
  | none => .error .missingCallback
  | some t => .ok (.tmap t)

/-- `Transducer._reduce(callbackFn)`: throws `"Missing callback
function"` when the callback is absent, otherwise returns the reduce
combinator. -/
def _reduce (callbackFn : Option UserFn) : Except JSError TransducerFn :=
  match callbackFn with
  | none => .error .missingCallback
  | some c => .ok (.treduce c)

/-- `Transducer._initialValue(initialValue)`: throws `"Missing initial
value"` when the seed `== null` (both `undefined`, modelled `none`, and
explicit `null`, modelled `some .vnull`), otherwise returns the closure
that deep-copies the captured seed on each call. -/
def _initialValue (initialValue : Option JSVal) : Except JSError InitValue :=
  match initialValue with
  | none => .error .missingInitialValue
  | some .vnull => .error .missingInitialValue
  | some z => .ok (.seedThunk z)

/-- `new Transducer.Filter(callbackFn)`: `initialValue` is the `Array`
function, `reducer` is `Transducer._push`, `transducer` is
`Transducer._filter(callbackFn)` (validated eagerly, at construction). -/
def Filter (callbackFn : Option UserFn) : Except JSError StageObj := do
  let tf ← Transducer._filter callbackFn
  pure { initialValue := .arrayCtor, reducer := .push, transducer := tf }

/-- `new Transducer.Map(callbackFn)`: like Filter but with the map
combinator. -/
def Map (callbackFn : Option UserFn) : Except JSError StageObj := do
  let tm ← Transducer._map callbackFn
  pure { initialValue := .arrayCtor, reducer := .push, transducer := tm }

/-- `new Transducer.Reduce(callbackFn, initialValue)`: assigns
`this.initialValue = Transducer._initialValue(initialValue)` first (so
a missing seed throws before a missing callback is noticed), then
`this.reducer = callbackFn` and
`this.transducer = Transducer._reduce(callbackFn)`. -/
def Reduce (callbackFn : Option UserFn) (initialValue : Option JSVal) :
    Except JSError StageObj := do
  let iv ← Transducer._initialValue initialValue
  let tr ← Transducer._reduce callbackFn
  match callbackFn with
  | some c => pure { initialValue := iv, reducer := .user c, transducer := tr }
  | none => .error .missingCallback

/-- The composed fields `this._initialValue` and `this._reducer` that
`compose` stores on the pipeline object. -/
structure ComposedT where
  _initialValue : InitValue
  _reducer : StepFn

/-- The loop of `compose`: `for (i = n - 1; i >= 0; i--) reducer =
transducers[i].transducer(reducer)`.  The descending index loop applies
the last stage first, which is exactly a right-to-left traversal of the
list: this recursion composes the tail (indices i+1..n-1) first and
then applies the head. -/
def composeSteps : List StageObj → StepFn → Except JSError StepFn
  | [], r => .ok r
  | t :: ts, r => do
    let r' ← composeSteps ts r
    t.transducer.apply r'

/-- The body of `Transducer.prototype.compose`: read the terminal stage
`transducers[n - 1]` (on an empty list this is `undefined` and reading
its `.reducer` throws, the EmptyPipeline error), start from its
`reducer`, run the descending loop over indices n-1..0, and record the
terminal stage's `initialValue` together with the combined step. -/
def composeCore (transducers : List StageObj) : Except JSError ComposedT :=
  match transducers.getLast? with
  | none => .error .emptyPipeline
  | some transducer => do
    let reducer ← composeSteps transducers transducer.reducer
    pure { _initialValue := transducer.initialValue, _reducer := reducer }

/-- The traversal loop of `transduce`: `for (i = 0; i < n; i++)
accumulator = reducer(accumulator, array[i], i, array)`, modelled by
recursion over the remaining elements carrying the current index; the
whole source array is passed as the fourth argument of every call. -/
def transduceLoop (reducer : StepFn) (arr : List JSVal) :
    List JSVal → Nat → JSVal → Except JSError JSVal
  | [], _, accumulator => .ok accumulator
  | v :: vs, i, accumulator => do
    let acc' ← reducer.eval accumulator v (.vnum (Int.ofNat i)) (.varr arr)
    transduceLoop reducer arr vs (i + 1) acc'

/-- Running a composed pipeline over an array: initialise the
accumulator from the factory (`this._initialValue()`), then run the
traversal loop from index 0. -/
def ComposedT.run (cp : ComposedT) (arr : List JSVal) : Except JSError JSVal :=
  transduceLoop cp._reducer arr arr 0 cp._initialValue.run

end Transducer

/-- The pipeline object built by `Transducer(transducers)`: the stage
list, and the composed fields once `compose` has stored them (`none`
before the first composition). -/
structure TransducerObj where
  transducers : List StageObj
  composed : Option Transducer.ComposedT

/-- The `Transducer` constructor: `null`/`undefined` stage list becomes
the empty list; the composed fields start unset. -/
def mkTransducer (transducers : Option (List StageObj)) : TransducerObj :=
  { transducers := transducers.getD [], composed := none }

/-- `Transducer.prototype.compose`: composes `this.transducers` and
stores the result on the object (returned here as the updated object,
the source mutates `this` and returns it). -/
def TransducerObj.compose (t : TransducerObj) : Except JSError TransducerObj :=
  match Transducer.composeCore t.transducers with
  | .error e => .error e
  | .ok cp => .ok { t with composed := some cp }

/-- `Transducer.prototype.transduce(array)`: throws `"Missing array"`
when the argument `== null`; calling it before any composition throws a
TypeError (`this._initialValue` is `undefined`); otherwise runs the
composed step over the array. -/
def TransducerObj.transduce (t : TransducerObj) (array : Option (List JSVal)) :
    Except JSError JSVal :=
  match array with
  | none => .error .missingArray
  | some arr =>
    match t.composed with
    | none => .error .typeErrorNotComposed
    | some cp => cp.run arr

/-- `Transducer.prototype.composeTransduce(array)`: compose, then
transduce. -/
def TransducerObj.composeTransduce (t : TransducerObj)
    (array : Option (List JSVal)) : Except JSError JSVal := do
  let t' ← t.compose
  t'.transduce array

instance {ε α : Type} [DecidableEq ε] [DecidableEq α] : DecidableEq (Except ε α) := fun a b =>
  match a, b with
  | .ok a, .ok b => decidable_of_iff (a = b) (by simp)
  | .error a, .error b => decidable_of_iff (a = b) (by simp)
  | .ok _, .error _ => isFalse (by simp)
  | .error _, .ok _ => isFalse (by simp)

/-- Lift a pure element-only predicate to a user callback: the JS
function ignores the index and array arguments and returns a boolean. -/
def predFn (P : JSVal → Bool) : UserFn :=
  { id := 0, fn := fun args => .vbool (P (args.getD 0 .vnull)) }

/-- Lift a predicate of (element, index, array) to a user callback. -/
def predFn3 (P : JSVal → JSVal → JSVal → Bool) : UserFn :=
  { id := 0, fn := fun args => .vbool (P (args.getD 0 .vnull) (args.getD 1 .vnull) (args.getD 2 .vnull)) }

/-- Lift a pure element-only transform to a user callback. -/
def mapFn (T : JSVal → JSVal) : UserFn :=
  { id := 0, fn := fun args => T (args.getD 0 .vnull) }

/-- Lift a pure (accumulator, element) combine function to a user
callback. -/
def combineFn (C : JSVal → JSVal → JSVal) : UserFn :=
  { id := 0, fn := fun args => C (args.getD 0 .vnull) (args.getD 1 .vnull) }

/-- The isOdd test predicate: true on odd numbers. -/
def isOddB : JSVal → Bool
  | .vnum n => n % 2 != 0
  | _ => false

/-- The double test transform: doubles a number. -/
def doubleF : JSVal → JSVal
  | .vnum n => .vnum (2 * n)
  | v => v

/-- The sum test combine function: adds two numbers. -/
def sumC : JSVal → JSVal → JSVal
  | .vnum a, .vnum b => .vnum (a + b)
  | a, _ => a

mutual

theorem jsonClone_id : ∀ v : JSVal, jsonClone v = v
  | .vnum _ => rfl
  | .vbool _ => rfl
  | .vstr _ => rfl
  | .vnull => rfl
  | .varr xs => by simp [jsonClone, jsonCloneList_id xs]

theorem jsonCloneList_id : ∀ vs : List JSVal, jsonCloneList vs = vs
  | [] => rfl
  | v :: vs => by simp [jsonCloneList, jsonClone_id v, jsonCloneList_id vs]

end

/-- The descending composition loop over a concatenated stage list runs
the right part first and feeds its result to the left part. -/
theorem composeSteps_append (l m : List StageObj) (r : StepFn) :
    Transducer.composeSteps (l ++ m) r =
      (Transducer.composeSteps m r).bind (fun r' => Transducer.composeSteps l r') := by
  induction l with
  | nil =>
    simp only [List.nil_append]
    cases h : Transducer.composeSteps m r <;> rfl
  | cons t ts ih =>
    show (Transducer.composeSteps (ts ++ m) r).bind _ = _
    rw [ih]
    cases h : Transducer.composeSteps m r <;> rfl

/-- Traversal with a bare combine callback as the step is the left fold
of the combine function. -/
theorem transduceLoop_user (C : JSVal → JSVal → JSVal) (S : List JSVal) :
    ∀ (rest : List JSVal) (i : Nat) (acc : JSVal),
      Transducer.transduceLoop (.user (combineFn C)) S rest i acc = .ok (rest.foldl C acc)
  | [], _, _ => rfl
  | v :: vs, i, acc => transduceLoop_user C S vs (i + 1) (C acc v)

/-- Traversal with a filter-map-combine step chain is the fold of the
combine function over the filtered, transformed elements. -/
theorem transduceLoop_fmr (P : JSVal → Bool) (T : JSVal → JSVal)
    (C : JSVal → JSVal → JSVal) (S : List JSVal) :
    ∀ (rest : List JSVal) (i : Nat) (acc : JSVal),
      Transducer.transduceLoop
          (.filterStep (predFn P) (.mapStep (mapFn T) (.user (combineFn C)))) S rest i acc
        = .ok (((rest.filter P).map T).foldl C acc)
  | [], _, _ => rfl
  | v :: vs, i, acc => by
    by_cases h : P v
    · have ih := transduceLoop_fmr P T C S vs (i + 1) (C acc (T v))
      simpa [Transducer.transduceLoop, StepFn.eval, predFn, mapFn, combineFn, truthy, h,
        List.filter] using ih
    · have ih := transduceLoop_fmr P T C S vs (i + 1) acc
      simpa [Transducer.transduceLoop, StepFn.eval, predFn, truthy, h, List.filter] using ih

/-- Traversal with a filter-map-append step chain builds the array of
transformed kept elements, appended to the incoming accumulator. -/
theorem transduceLoop_fm (P : JSVal → Bool) (T : JSVal → JSVal) (S : List JSVal) :
    ∀ (rest : List JSVal) (i : Nat) (ys : List JSVal),
      Transducer.transduceLoop (.filterStep (predFn P) (.mapStep (mapFn T) .push)) S rest i (.varr ys)
        = .ok (.varr (ys ++ (rest.filter P).map T))
  | [], _, _ => by simp [Transducer.transduceLoop]
  | v :: vs, i, ys => by
    by_cases h : P v
    · have ih := transduceLoop_fm P T S vs (i + 1) (ys ++ [T v])
      simpa [Transducer.transduceLoop, StepFn.eval, predFn, mapFn, truthy, h, List.filter] using ih
    · have ih := transduceLoop_fm P T S vs (i + 1) ys
      simpa [Transducer.transduceLoop, StepFn.eval, predFn, truthy, h, List.filter] using ih

/-- Reference definition from the specification wording for C6: the
ordered sub-sequence of the elements of `S` for which the predicate
holds, the predicate being invoked with the element, its original
index, and the source sequence.  `rest` and `i` walk the remaining
elements with their original positions. -/
def specFilterIdxAux (P : JSVal → JSVal → JSVal → Bool) (S : List JSVal) :
    List JSVal → Nat → List JSVal
  | [], _ => []
  | v :: vs, i =>
    if P v (.vnum (Int.ofNat i)) (.varr S) then v :: specFilterIdxAux P S vs (i + 1)
    else specFilterIdxAux P S vs (i + 1)

/-- The ordered sub-sequence of `S` whose elements satisfy
`P element index source`, in original order. -/
def specFilterIdx (P : JSVal → JSVal → JSVal → Bool) (S : List JSVal) : List JSVal :=
  specFilterIdxAux P S S 0

/-- Traversal with a single filter step over `push` collects exactly
the elements the predicate keeps, the predicate seeing each element
with its original index and the source array. -/
theorem transduceLoop_filter3 (P : JSVal → JSVal → JSVal → Bool) (S : List JSVal) :
    ∀ (rest : List JSVal) (i : Nat) (ys : List JSVal),
      Transducer.transduceLoop (.filterStep (predFn3 P) .push) S rest i (.varr ys)
        = .ok (.varr (ys ++ specFilterIdxAux P S rest i))
  | [], _, _ => by simp [Transducer.transduceLoop, specFilterIdxAux]
  | v :: vs, i, ys => by
    by_cases h : P v (.vnum (i : Int)) (.varr S)
    · have ih := transduceLoop_filter3 P S vs (i + 1) (ys ++ [v])
      simpa [Transducer.transduceLoop, StepFn.eval, predFn3, truthy, specFilterIdxAux, h]
        using ih
    · have ih := transduceLoop_filter3 P S vs (i + 1) ys
      simpa [Transducer.transduceLoop, StepFn.eval, predFn3, truthy, specFilterIdxAux, h]
        using ih

/-- Claim C6: for every predicate P and sequence S, composing the
single-stage pipeline [Filter(P)] and executing it over S returns the
ordered sub-sequence of S containing exactly the elements for which P
holds, in their original order, with P invoked on each element together
with its original index and the source sequence. -/
theorem single_filter_keeps_matching_elements
    (P : JSVal → JSVal → JSVal → Bool) (S : List JSVal) :
    (do
      let f ← Transducer.Filter (some (predFn3 P))
      let cp ← Transducer.composeCore [f]
      cp.run S) = .ok (.varr (specFilterIdx P S)) := by
  have h := transduceLoop_filter3 P S S 0 []
  simpa [specFilterIdx] using h

/-- Claim C1: for every pure predicate P, transform T, combine function
C, seed Z and finite sequence S, composing the pipeline
Filter(P), Map(T), Reduce(C, Z) and executing it once over S returns the
same result as the standard sequential chain
S.filter(P).map(T).reduce(C, Z), and the same pipeline without the
Reduce stage returns the filtered, transformed sequence. -/
theorem filterMapReduce_matches_chain
    (P : JSVal → Bool) (T : JSVal → JSVal) (C : JSVal → JSVal → JSVal)
    (z : JSVal) (hz : z ≠ .vnull) (S : List JSVal) :
    (do
      let f ← Transducer.Filter (some (predFn P))
      let m ← Transducer.Map (some (mapFn T))
      let r ← Transducer.Reduce (some (combineFn C)) (some z)
      let cp ← Transducer.composeCore [f, m, r]
      cp.run S) = .ok (((S.filter P).map T).foldl C z)
    ∧ (do
      let f ← Transducer.Filter (some (predFn P))
      let m ← Transducer.Map (some (mapFn T))
      let cp ← Transducer.composeCore [f, m]
      cp.run S) = .ok (.varr ((S.filter P).map T)) := by
  constructor
  · cases z with
    | vnull => exact absurd rfl hz
    | vnum n =>
      exact (transduceLoop_fmr P T C S S 0 (jsonClone (.vnum n))).trans (by rw [jsonClone_id])
    | vbool b =>
      exact (transduceLoop_fmr P T C S S 0 (jsonClone (.vbool b))).trans (by rw [jsonClone_id])
    | vstr s =>
      exact (transduceLoop_fmr P T C S S 0 (jsonClone (.vstr s))).trans (by rw [jsonClone_id])
    | varr xs =>
      exact (transduceLoop_fmr P T C S S 0 (jsonClone (.varr xs))).trans (by rw [jsonClone_id])
  · simpa using transduceLoop_fm P T S S 0 []

/-- Witness for C1: the concrete scenario S = [1,2,3,4,5], P = isOdd,
T = double, C = sum, Z = 0 returns 18, and the same pipeline without
the Reduce stage returns [2,6,10]. -/
theorem filterMapReduce_matches_chain_witness :
    (do
      let f ← Transducer.Filter (some (predFn isOddB))
      let m ← Transducer.Map (some (mapFn doubleF))
      let r ← Transducer.Reduce (some (combineFn sumC)) (some (.vnum 0))
      let cp ← Transducer.composeCore [f, m, r]
      cp.run [.vnum 1, .vnum 2, .vnum 3, .vnum 4, .vnum 5]) = .ok (.vnum 18)
    ∧ (do
      let f ← Transducer.Filter (some (predFn isOddB))
      let m ← Transducer.Map (some (mapFn doubleF))
      let cp ← Transducer.composeCore [f, m]
      cp.run [.vnum 1, .vnum 2, .vnum 3, .vnum 4, .vnum 5]) =
      .ok (.varr [.vnum 2, .vnum 6, .vnum 10]) := by
  have h := filterMapReduce_matches_chain isOddB doubleF sumC (.vnum 0) (by decide)
    [.vnum 1, .vnum 2, .vnum 3, .vnum 4, .vnum 5]
  exact ⟨h.1.trans (by decide), h.2.trans (by decide)⟩

/-- Claim C5: composing a pipeline with zero stages fails with the
EmptyPipeline error (in the source, the terminal `transducers[n - 1]`
is `undefined` and reading its `reducer` property throws; this is the
error the specification taxonomy names EmptyPipeline), rather than
succeeding as a no-op. -/
theorem empty_pipeline_compose_fails :
    (mkTransducer none).compose = .error .emptyPipeline
    ∧ Transducer.composeCore [] = .error .emptyPipeline :=
  ⟨rfl, rfl⟩

/-- The empty string (a falsy but present JS value). -/
def emptyStr : String := ""

theorem exceptBind_ok {ε α β : Type} (a : α) (f : α → Except ε β) :
    (do let x ← (Except.ok a : Except ε α); f x) = f a := rfl

theorem exceptBind_error {ε α β : Type} (e : ε) (f : α → Except ε β) :
    (do let x ← (Except.error e : Except ε α); f x) = (Except.error e : Except ε β) := rfl

theorem exceptDotBind_ok {ε α β : Type} (a : α) (f : α → Except ε β) :
    (Except.ok a : Except ε α).bind f = f a := rfl

theorem exceptDotBind_error {ε α β : Type} (e : ε) (f : α → Except ε β) :
    (Except.error e : Except ε α).bind f = (Except.error e : Except ε β) := rfl

/-- Composing a single Reduce-shaped stage succeeds: the reduce
combinator receives the reference-identical combine callback and
returns it unchanged. -/
theorem composeCore_single_reduce (c : UserFn) (iv : InitValue) :
    Transducer.composeCore [{ initialValue := iv, reducer := .user c, transducer := .treduce c }]
      = .ok { _initialValue := iv, _reducer := .user c } := by
  simp [Transducer.composeCore, Transducer.composeSteps, TransducerFn.apply, refEq,
    exceptBind_ok]

/-- Claim C4: composing the single-stage pipeline [Reduce(C, Z)] and
executing it over a sequence returns the left fold of C over the
sequence starting from a deep copy of Z; each execution starts from an
independent copy, so executing the same composed pipeline over S1 and
then over S2 gives each run its fold from the fresh copy of Z, and the
concrete composed Filter(isOdd).Map(double).Reduce(sum, 0) pipeline
executed over [1,2,3,4,5] and then [6,7,8,9,0] returns 18 and then
32. -/
theorem reduce_stage_folds_from_seed_copy
    (C : JSVal → JSVal → JSVal) (z : JSVal) (hz : z ≠ .vnull)
    (S1 S2 : List JSVal) (t : TransducerObj)
    (ht : (do
      let r ← Transducer.Reduce (some (combineFn C)) (some z)
      TransducerObj.compose { transducers := [r], composed := none }) = .ok t) :
    t.transduce (some S1) = .ok (S1.foldl C (jsonClone z))
    ∧ t.transduce (some S2) = .ok (S2.foldl C (jsonClone z))
    ∧ (do
      let f ← Transducer.Filter (some (predFn isOddB))
      let m ← Transducer.Map (some (mapFn doubleF))
      let r ← Transducer.Reduce (some (combineFn sumC)) (some (.vnum 0))
      let tp ← TransducerObj.compose { transducers := [f, m, r], composed := none }
      pure (tp.transduce (some [.vnum 1, .vnum 2, .vnum 3, .vnum 4, .vnum 5]),
            tp.transduce (some [.vnum 6, .vnum 7, .vnum 8, .vnum 9, .vnum 0])))
      = .ok (.ok (.vnum 18), .ok (.vnum 32)) := by
  refine ⟨?_, ?_, by decide⟩ <;>
  · cases z with
    | vnull => exact absurd rfl hz
    | vnum n =>
      obtain rfl := (Except.ok.inj ht).symm
      exact transduceLoop_user C _ _ 0 (jsonClone (.vnum n))
    | vbool b =>
      obtain rfl := (Except.ok.inj ht).symm
      exact transduceLoop_user C _ _ 0 (jsonClone (.vbool b))
    | vstr s =>
      obtain rfl := (Except.ok.inj ht).symm
      exact transduceLoop_user C _ _ 0 (jsonClone (.vstr s))
    | varr xs =>
      obtain rfl := (Except.ok.inj ht).symm
      exact transduceLoop_user C _ _ 0 (jsonClone (.varr xs))

/-- The stage object produced by `Transducer.Reduce(sum, 0)` with the
element-only sum combine callback. -/
def sumStage0 : StageObj :=
  { initialValue := .seedThunk (.vnum 0), reducer := .user (combineFn sumC),
    transducer := .treduce (combineFn sumC) }

/-- The pipeline object holding the single sum Reduce stage after
composition. -/
def sumPipeline0 : TransducerObj :=
  { transducers := [sumStage0],
    composed := some { _initialValue := .seedThunk (.vnum 0), _reducer := .user (combineFn sumC) } }

/-- Witness for C4: the single-stage Reduce(sum, 0) pipeline composed
once and executed over [1,2,3,4,5] and then [6,7,8,9,0] returns 15 and
then 30, each run folding from a fresh copy of the seed 0. -/
theorem reduce_stage_folds_from_seed_copy_witness :
    sumPipeline0.transduce (some [.vnum 1, .vnum 2, .vnum 3, .vnum 4, .vnum 5]) = .ok (.vnum 15)
    ∧ sumPipeline0.transduce (some [.vnum 6, .vnum 7, .vnum 8, .vnum 9, .vnum 0]) = .ok (.vnum 30) := by
  have h := reduce_stage_folds_from_seed_copy sumC (.vnum 0) (by decide)
    [.vnum 1, .vnum 2, .vnum 3, .vnum 4, .vnum 5] [.vnum 6, .vnum 7, .vnum 8, .vnum 9, .vnum 0]
    sumPipeline0 rfl
  exact ⟨h.1.trans (by decide), h.2.1.trans (by decide)⟩

/-- Claim C8: the stage constructors validate eagerly at construction
time: Filter, Map or Reduce without its callback fails immediately with
the missing-callback error, and Reduce without a seed fails immediately
with the missing-seed error (the seed is checked before the callback,
so Reduce with neither also reports the missing seed). -/
theorem constructors_validate_eagerly (c : UserFn) (z : JSVal) (hz : z ≠ .vnull) :
    Transducer.Filter none = .error .missingCallback
    ∧ Transducer.Map none = .error .missingCallback
    ∧ Transducer.Reduce none (some z) = .error .missingCallback
    ∧ Transducer.Reduce (some c) none = .error .missingInitialValue
    ∧ Transducer.Reduce none none = .error .missingInitialValue := by
  refine ⟨rfl, rfl, ?_, rfl, rfl⟩
  cases z with
  | vnull => exact absurd rfl hz
  | vnum n => rfl
  | vbool b => rfl
  | vstr s => rfl
  | varr xs => rfl

/-- Witness for C8: the eager validation failures at the concrete
callback sum and seed 0. -/
theorem constructors_validate_eagerly_witness :
    Transducer.Filter none = .error .missingCallback
    ∧ Transducer.Map none = .error .missingCallback
    ∧ Transducer.Reduce none (some (.vnum 0)) = .error .missingCallback
    ∧ Transducer.Reduce (some (combineFn sumC)) none = .error .missingInitialValue
    ∧ Transducer.Reduce none none = .error .missingInitialValue :=
  constructors_validate_eagerly (combineFn sumC) (.vnum 0) (by decide)

/-- Claim C10: constructing Reduce with an explicitly null seed fails
with the missing-seed error exactly as when the seed is omitted,
whereas the falsy-but-present seeds 0, false and the empty string are
accepted, stored, and used as the initial accumulator (executing the
composed single-stage pipeline over the empty sequence returns the
seed). -/
theorem null_seed_rejected_falsy_seeds_accepted (c : UserFn) :
    Transducer.Reduce (some c) (some .vnull) = .error .missingInitialValue
    ∧ Transducer.Reduce (some c) none = .error .missingInitialValue
    ∧ Transducer.Reduce (some c) (some (.vnum 0)) =
        .ok { initialValue := .seedThunk (.vnum 0), reducer := .user c, transducer := .treduce c }
    ∧ Transducer.Reduce (some c) (some (.vbool false)) =
        .ok { initialValue := .seedThunk (.vbool false), reducer := .user c, transducer := .treduce c }
    ∧ Transducer.Reduce (some c) (some (.vstr emptyStr)) =
        .ok { initialValue := .seedThunk (.vstr emptyStr), reducer := .user c, transducer := .treduce c }
    ∧ (do
        let cp ← Transducer.composeCore
          [{ initialValue := .seedThunk (.vnum 0), reducer := .user c, transducer := .treduce c }]
        cp.run []) = .ok (.vnum 0)
    ∧ (do
        let cp ← Transducer.composeCore
          [{ initialValue := .seedThunk (.vbool false), reducer := .user c, transducer := .treduce c }]
        cp.run []) = .ok (.vbool false)
    ∧ (do
        let cp ← Transducer.composeCore
          [{ initialValue := .seedThunk (.vstr emptyStr), reducer := .user c, transducer := .treduce c }]
        cp.run []) = .ok (.vstr emptyStr) := by
  refine ⟨rfl, rfl, rfl, rfl, rfl, ?_, ?_, ?_⟩ <;>
    rw [composeCore_single_reduce] <;> rfl

/-- Inverting a successful composition: it succeeded on the stored
stage list and only filled in the composed fields, leaving the stage
list unchanged. -/
theorem compose_ok_elim (t t' : TransducerObj) (h : t.compose = .ok t') :
    ∃ cp, Transducer.composeCore t.transducers = .ok cp
      ∧ t' = { transducers := t.transducers, composed := some cp } := by
  unfold TransducerObj.compose at h
  cases hc : Transducer.composeCore t.transducers with
  | error e => rw [hc] at h; simp at h
  | ok cp => rw [hc] at h; exact ⟨cp, rfl, (Except.ok.inj h).symm⟩

/-- Claim C7: for a pipeline whose stage list is unchanged, composing
twice and then executing yields the same result as composing once and
executing, for every input sequence: recomposition is behaviorally
idempotent. -/
theorem recompose_behaviorally_identical (t t1 t2 : TransducerObj)
    (h1 : t.compose = .ok t1) (h2 : t1.compose = .ok t2)
    (array : Option (List JSVal)) :
    t2.transduce array = t1.transduce array := by
  obtain ⟨cp, hc, rfl⟩ := compose_ok_elim t t1 h1
  obtain ⟨cp2, hc2, rfl⟩ := compose_ok_elim _ t2 h2
  have hcc : (Except.ok cp2 : Except JSError Transducer.ComposedT) = .ok cp :=
    hc2.symm.trans hc
  obtain rfl := Except.ok.inj hcc
  rfl

/-- The stage object produced by `Transducer.Filter(isOdd)`. -/
def isOddStage : StageObj :=
  { initialValue := .arrayCtor, reducer := .push, transducer := .tfilter (predFn isOddB) }

/-- The single-stage isOdd filter pipeline before composition. -/
def isOddPipe0 : TransducerObj := { transducers := [isOddStage], composed := none }

/-- The single-stage isOdd filter pipeline after composition. -/
def isOddPipe1 : TransducerObj :=
  { transducers := [isOddStage],
    composed := some { _initialValue := .arrayCtor, _reducer := .filterStep (predFn isOddB) .push } }

/-- Witness for C7: composing the isOdd filter pipeline twice and
executing gives the same result as composing once, namely [1]. -/
theorem recompose_behaviorally_identical_witness :
    isOddPipe1.transduce (some [.vnum 1, .vnum 2]) = isOddPipe1.transduce (some [.vnum 1, .vnum 2])
    ∧ isOddPipe1.transduce (some [.vnum 1, .vnum 2]) = .ok (.varr [.vnum 1]) :=
  ⟨recompose_behaviorally_identical isOddPipe0 isOddPipe1 isOddPipe1 rfl rfl
    (some [.vnum 1, .vnum 2]), by decide⟩

/-- Modelled from the claim wording for C2: the composition algorithm
the claim asserts, in which the combined step starts as the terminal
reducer and the combinators are applied only for the stages at indices
n-2 down to 0, so the terminal stage combinator is never applied. -/
def specComposeSkipTerminal (transducers : List StageObj) :
    Except JSError Transducer.ComposedT :=
  match transducers.getLast? with
  | none => .error .emptyPipeline
  | some terminal => do
    let reducer ← Transducer.composeSteps transducers.dropLast terminal.reducer
    pure { _initialValue := terminal.initialValue, _reducer := reducer }

/-- The amended composition algorithm: the combined step starts as the
terminal reducer, the terminal stage combinator is applied to it first
(index n-1), and then the combinators of indices n-2 down to 0 are
applied. -/
def specComposeAll (transducers : List StageObj) :
    Except JSError Transducer.ComposedT :=
  match transducers.getLast? with
  | none => .error .emptyPipeline
  | some terminal => do
    let r0 ← terminal.transducer.apply terminal.reducer
    let reducer ← Transducer.composeSteps transducers.dropLast r0
    pure { _initialValue := terminal.initialValue, _reducer := reducer }

/-- Counterexample for C2: on the single-stage pipeline [Filter(isOdd)]
the code composition (loop from index n-1) filters, returning [1] on
[1,2], while the algorithm the claim describes (loop from index n-2,
terminal combinator not applied) would leave the bare append step and
return [1,2]; the two results differ, so composition does apply the
terminal stage combinator. -/
theorem compose_skips_terminal_counterexample :
    Transducer.Filter (some (predFn isOddB)) = .ok isOddStage
    ∧ (do
        let cp ← Transducer.composeCore [isOddStage]
        cp.run [.vnum 1, .vnum 2]) = .ok (.varr [.vnum 1])
    ∧ (do
        let cp ← specComposeSkipTerminal [isOddStage]
        cp.run [.vnum 1, .vnum 2]) = .ok (.varr [.vnum 1, .vnum 2])
    ∧ (Except.ok (JSVal.varr [.vnum 1]) : Except JSError JSVal) ≠ .ok (.varr [.vnum 1, .vnum 2]) :=
  ⟨rfl, by decide, by decide, by decide⟩

/-- Claim C2 amended: composition initialises the combined step to the
terminal stage reducer and then applies the combinators of the stages
at indices n-1 down to 0 — including the terminal stage combinator
around its own reducer (for a Reduce terminal this application returns
the step unchanged; for a Filter or Map terminal it wraps the append
step). -/
theorem compose_applies_terminal_combinator (ts : List StageObj) :
    Transducer.composeCore ts = specComposeAll ts := by
  cases hl : ts.getLast? with
  | none => simp [Transducer.composeCore, specComposeAll, hl]
  | some terminal =>
    have hne : ts ≠ [] := by rintro rfl; simp at hl
    have hlast : ts.getLast hne = terminal := by
      rw [List.getLast?_eq_getLast ts hne] at hl
      exact Option.some.inj hl
    have hts : ts.dropLast ++ [terminal] = ts := by
      rw [← hlast]; exact List.dropLast_append_getLast hne
    simp only [Transducer.composeCore, specComposeAll, hl]
    conv_lhs => rw [← hts]
    rw [composeSteps_append]
    cases h0 : terminal.transducer.apply terminal.reducer <;>
      simp [Transducer.composeSteps, exceptBind_ok, exceptBind_error, exceptDotBind_ok,
        exceptDotBind_error, h0]

/-- A concrete user combine callback (a distinct function object from
the id-0 lifted callbacks): sums its first two arguments. -/
def sumFn : UserFn :=
  { id := 1, fn := fun args => sumC (args.getD 0 .vnull) (args.getD 1 .vnull) }

/-- The stage object produced by `Transducer.Reduce(sumFn, 0)`. -/
def sumReduceStage : StageObj :=
  { initialValue := .seedThunk (.vnum 0), reducer := .user sumFn, transducer := .treduce sumFn }

/-- Counterexample for C3: the pipeline [Reduce(sum, 0), Reduce(sum, 0)]
built from the same combine callback object has a Reduce stage that is
not last, yet composition succeeds (the reduce combinator only fails
when the downstream step is not reference-identical to its own combine
callback) and the composed pipeline executes, so the claim that every
pipeline with a non-final Reduce stage fails with ReduceNotLast is
false. -/
theorem duplicate_reduce_composes_counterexample :
    Transducer.Reduce (some sumFn) (some (.vnum 0)) = .ok sumReduceStage
    ∧ Transducer.composeCore [sumReduceStage, sumReduceStage] =
        .ok { _initialValue := .seedThunk (.vnum 0), _reducer := .user sumFn }
    ∧ Transducer.composeCore [sumReduceStage, sumReduceStage] ≠ .error .reduceNotLast
    ∧ (do
        let cp ← Transducer.composeCore [sumReduceStage, sumReduceStage]
        cp.run [.vnum 1, .vnum 2]) = .ok (.vnum 3) := by
  refine ⟨rfl, rfl, ?_, by decide⟩
  intro h
  exact Except.noConfusion h

/-- Claim C3 amended: composition fails with ReduceNotLast exactly when
it hands a Reduce stage a downstream step that is not
reference-identical to its own combine callback: whenever a Reduce
stage is not last and the stages after it compose to any step other
than that same callback object (in particular whenever a Filter or Map
stage follows it), compose fails with ReduceNotLast; a duplicated
Reduce whose downstream composes back to the identical callback is the
one exception and composes successfully. -/
theorem reduce_not_last_fails (pre post : List StageObj) (c : UserFn) (z : JSVal)
    (rstage : StageObj) (hr : Transducer.Reduce (some c) (some z) = .ok rstage)
    (terminal : StageObj) (hterm : post.getLast? = some terminal)
    (dstep : StepFn) (hd : Transducer.composeSteps post terminal.reducer = .ok dstep)
    (hne : refEq dstep c = false) :
    Transducer.composeCore (pre ++ rstage :: post) = .error .reduceNotLast := by
  have htr : rstage.transducer = .treduce c := by
    cases z with
    | vnull =>
      exact absurd hr (by simp [Transducer.Reduce, Transducer._initialValue, exceptBind_error])
    | vnum n => obtain rfl := (Except.ok.inj hr).symm; rfl
    | vbool b => obtain rfl := (Except.ok.inj hr).symm; rfl
    | vstr s => obtain rfl := (Except.ok.inj hr).symm; rfl
    | varr xs => obtain rfl := (Except.ok.inj hr).symm; rfl
  have hgl : (pre ++ rstage :: post).getLast? = some terminal := by
    have h1 : (rstage :: post).getLast? = some terminal := by
      rw [show rstage :: post = [rstage] ++ post from rfl, List.getLast?_append, hterm]
      rfl
    rw [List.getLast?_append, h1]
    rfl
  have hinner : Transducer.composeSteps (rstage :: post) terminal.reducer =
      .error .reduceNotLast := by
    show (Transducer.composeSteps post terminal.reducer).bind _ = _
    rw [hd, exceptDotBind_ok, htr]
    simp [TransducerFn.apply, hne]
  simp only [Transducer.composeCore, hgl]
  rw [composeSteps_append, hinner]
  rfl

/-- Witness for C3 amended: composing [Reduce(sum, 0), Filter(isOdd)]
fails with ReduceNotLast. -/
theorem reduce_not_last_fails_witness :
    Transducer.composeCore [sumReduceStage, isOddStage] = .error .reduceNotLast :=
  reduce_not_last_fails [] [isOddStage] sumFn (.vnum 0) sumReduceStage rfl isOddStage rfl
    (.filterStep (predFn isOddB) .push) rfl rfl

/-- A combined step built only from filter and map wrappers around the
append step (the shape composition produces for pipelines with no
Reduce stage). -/
inductive FMStep : StepFn → Prop where
  | push : FMStep .push
  | filt (p : UserFn) (r : StepFn) : FMStep r → FMStep (.filterStep p r)
  | mp (t : UserFn) (r : StepFn) : FMStep r → FMStep (.mapStep t r)

/-- A stage object of Filter or Map shape (as the constructors build
them): the accumulator factory is the Array function and the reducer is
the append step. -/
def FMStage (s : StageObj) : Prop :=
  (∃ p, s = { initialValue := .arrayCtor, reducer := .push, transducer := .tfilter p })
  ∨ (∃ t, s = { initialValue := .arrayCtor, reducer := .push, transducer := .tmap t })

/-- A filter-map step applied to an array accumulator never throws and
returns an array accumulator. -/
theorem fmStep_eval (r : StepFn) (h : FMStep r) :
    ∀ (ys : List JSVal) (v i arr : JSVal),
      ∃ zs, r.eval (.varr ys) v i arr = .ok (.varr zs) := by
  induction h with
  | push => exact fun ys v i arr => ⟨ys ++ [v], rfl⟩
  | filt p r hr ih =>
    intro ys v i arr
    by_cases hp : truthy (p.fn [v, i, arr])
    · obtain ⟨zs, hz⟩ := ih ys v i arr
      exact ⟨zs, by simp [StepFn.eval, hp, hz]⟩
    · exact ⟨ys, by simp [StepFn.eval, hp]⟩
  | mp t r hr ih =>
    intro ys v i arr
    obtain ⟨zs, hz⟩ := ih ys (t.fn [v, i, arr]) i arr
    exact ⟨zs, by simp [StepFn.eval, hz]⟩

/-- Traversal with a filter-map step from an array accumulator never
throws and produces an array. -/
theorem fmStep_loop (r : StepFn) (h : FMStep r) (S : List JSVal) :
    ∀ (rest : List JSVal) (i : Nat) (ys : List JSVal),
      ∃ zs, Transducer.transduceLoop r S rest i (.varr ys) = .ok (.varr zs)
  | [], _, ys => ⟨ys, rfl⟩
  | v :: vs, i, ys => by
    obtain ⟨zs1, h1⟩ := fmStep_eval r h ys v (.vnum (Int.ofNat i)) (.varr S)
    obtain ⟨zs2, h2⟩ := fmStep_loop r h S vs (i + 1) zs1
    refine ⟨zs2, ?_⟩
    show (r.eval (.varr ys) v (.vnum (Int.ofNat i)) (.varr S)).bind
      (fun acc' => Transducer.transduceLoop r S vs (i + 1) acc') = _
    rw [h1, exceptDotBind_ok]
    exact h2

/-- Composing filter and map stages over a filter-map step never throws
and yields a filter-map step. -/
theorem composeSteps_fm (ts : List StageObj) (hts : ∀ s ∈ ts, FMStage s)
    (r : StepFn) (hr : FMStep r) :
    ∃ r', Transducer.composeSteps ts r = .ok r' ∧ FMStep r' := by
  induction ts with
  | nil => exact ⟨r, rfl, hr⟩
  | cons t ts ih =>
    obtain ⟨r', hr', hfm⟩ := ih (fun s hs => hts s (List.mem_cons_of_mem _ hs))
    rcases hts t (List.mem_cons_self t ts) with ⟨p, rfl⟩ | ⟨tt, rfl⟩
    · exact ⟨.filterStep p r',
        by simp [Transducer.composeSteps, hr', TransducerFn.apply, exceptBind_ok],
        .filt _ _ hfm⟩
    · exact ⟨.mapStep tt r',
        by simp [Transducer.composeSteps, hr', TransducerFn.apply, exceptBind_ok],
        .mp _ _ hfm⟩

/-- Claim C9: for every composed pipeline whose stages are Filter or
Map (no Reduce stage), each execution starts from a fresh empty array
(the composed accumulator factory is the Array function, whose every
call returns the empty array), so executing the composed pipeline over
a sequence always returns an array built from that run alone — running
it twice gives two equal array results with no elements carried over
from the earlier run. -/
theorem fresh_array_per_execution (ts : List StageObj) (hne : ts ≠ [])
    (hts : ∀ s ∈ ts, FMStage s) (S : List JSVal) :
    ∃ cp ws, Transducer.composeCore ts = .ok cp
      ∧ cp._initialValue = .arrayCtor
      ∧ cp.run S = Transducer.transduceLoop cp._reducer S S 0 (.varr [])
      ∧ cp.run S = .ok (.varr ws) := by
  have hgl := List.getLast?_eq_getLast ts hne
  have hfmt := hts (ts.getLast hne) (List.getLast_mem hne)
  have hred : (ts.getLast hne).reducer = .push ∧ (ts.getLast hne).initialValue = .arrayCtor := by
    rcases hfmt with ⟨p, hp⟩ | ⟨t, ht⟩ <;> [rw [hp]; rw [ht]] <;> exact ⟨rfl, rfl⟩
  obtain ⟨r', hr', hfm⟩ := composeSteps_fm ts hts (ts.getLast hne).reducer
    (by rw [hred.1]; exact .push)
  obtain ⟨ws, hws⟩ := fmStep_loop r' hfm S S 0 []
  refine ⟨⟨(ts.getLast hne).initialValue, r'⟩, ws, ?_, hred.2, ?_, ?_⟩
  · simp [Transducer.composeCore, hgl, hr', exceptBind_ok]
  · show Transducer.transduceLoop r' S S 0 (InitValue.run (ts.getLast hne).initialValue) = _
    rw [hred.2]
    rfl
  · show Transducer.transduceLoop r' S S 0 (InitValue.run (ts.getLast hne).initialValue)
      = .ok (.varr ws)
    rw [hred.2]
    exact hws

/-- Witness for C9: the composed single-stage isOdd filter pipeline
starts each execution from the empty array and returns an array. -/
theorem fresh_array_per_execution_witness :
    ∃ cp ws, Transducer.composeCore [isOddStage] = .ok cp
      ∧ cp._initialValue = .arrayCtor
      ∧ cp.run [.vnum 1, .vnum 2] =
          Transducer.transduceLoop cp._reducer [.vnum 1, .vnum 2] [.vnum 1, .vnum 2] 0 (.varr [])
      ∧ cp.run [.vnum 1, .vnum 2] = .ok (.varr ws) :=
  fresh_array_per_execution [isOddStage] (by simp)
    (fun s hs => by
      rw [List.mem_singleton] at hs
      subst hs
      exact Or.inl ⟨predFn isOddB, rfl⟩)
    [.vnum 1, .vnum 2]
